import Mathlib

/-!
Verification of the Blogs-Corner content core: the in-memory content store
(`MemStorage`), the asset (image) lifecycle, the SSE broadcast hub, the HTTP
create/update routes' validation flow, and the client-side engagement tracker.
All definitions are shallow embeddings of the TypeScript source:
`server/storage.ts` (MemStorage), `server/routes.ts` (registerRoutes,
broadcastUpdate), `shared/schema.ts` (insertPostSchema), and the public blog
page's `handleLike`.
-/

namespace BlogsCorner

/-- A content item (`Post` in `shared/schema.ts`). Timestamps are modelled as
natural numbers (milliseconds). `category`, `imageUrl`, `imageFileName` are
nullable text columns, hence `Option String`. -/
structure Post where
  id : String
  title : String
  content : String
  author : String
  category : Option String
  imageUrl : Option String
  imageFileName : Option String
  views : Nat
  likes : Nat
  published : Bool
  createdAt : Nat
  updatedAt : Nat
deriving Repr, DecidableEq

/-- A validated create payload (`InsertPost = z.infer<typeof insertPostSchema>`).
`imageUrl`/`imageFileName` collapse `undefined`/`null` to `none` because
`createPost` applies `?? null` to both. `published` is optional (the column has
a default). -/
structure InsertPost where
  title : String
  content : String
  author : String
  category : Option String
  imageUrl : Option String
  imageFileName : Option String
  published : Option Bool
deriving Repr, DecidableEq

/-- A validated partial update payload (`Partial<InsertPost>` as produced by
`insertPostSchema.partial().parse`). For the nullable columns the outer
`Option` is key presence and the inner `Option` distinguishes an explicit
`null` from a string; zod omits absent keys, so `none` means "leave
unchanged" under object spread. The schema omits `id`, `views`, `likes`,
`createdAt`, `updatedAt`, and zod strips unrecognized keys, so no such field
can appear here. -/
structure UpdateData where
  title : Option String
  content : Option String
  author : Option String
  category : Option String
  imageUrl : Option (Option String)
  imageFileName : Option (Option String)
  published : Option Bool
deriving Repr, DecidableEq

/-- The `MemStorage.posts` map (`Map<string, Post>`), as an association list in
insertion order. `Map.set` on a present key replaces in place; on an absent key
it appends. -/
abbrev Store := List (String × Post)

/-- `this.posts.get(id)`: the value of the first entry carrying the key. -/
def findPost : Store → String → Option Post
  | [], _ => none
  | (k, v) :: rest, id => if k == id then some v else findPost rest id

/-- `this.posts.set(id, post)`: replace the entry if the key is present,
otherwise append. -/
def setPost : Store → String → Post → Store
  | [], id, p => [(id, p)]
  | (k, v) :: rest, id, p =>
    if k == id then (id, p) :: rest else (k, v) :: setPost rest id p

/-- `this.posts.delete(id)`: remove the entry with the key, if present. -/
def erasePost : Store → String → Store
  | [], _ => []
  | (k, v) :: rest, id => if k == id then rest else (k, v) :: erasePost rest id

/-- `MemStorage.createPost`: build the item from the insert payload with
`?? null` defaults on the image fields, `published ?? true`, zero counters and
both timestamps set to `now`, then `posts.set(id, post)`. The source draws
`id` from `randomUUID()`; here the fresh id is a parameter. -/
def createPost (s : Store) (id : String) (ins : InsertPost) (now : Nat) :
    Post × Store :=
  let post : Post :=
    { id := id
      title := ins.title
      content := ins.content
      author := ins.author
      category := ins.category
      imageUrl := ins.imageUrl
      imageFileName := ins.imageFileName
      views := 0
      likes := 0
      published := ins.published.getD true
      createdAt := now
      updatedAt := now }
  (post, setPost s id post)

/-- The object spread `{ ...post, ...updateData, updatedAt: new Date() }`:
keys present in the update payload overwrite the item's fields; `updatedAt` is
always refreshed. -/
def applyUpdate (p : Post) (u : UpdateData) (now : Nat) : Post :=
  { p with
    title := u.title.getD p.title
    content := u.content.getD p.content
    author := u.author.getD p.author
    category := match u.category with
      | some c => some c
      | none => p.category
    imageUrl := u.imageUrl.getD p.imageUrl
    imageFileName := u.imageFileName.getD p.imageFileName
    published := u.published.getD p.published
    updatedAt := now }

/-- `MemStorage.updatePost`: `undefined` when the id is absent, otherwise the
merged item is stored and returned. -/
def updatePost (s : Store) (id : String) (u : UpdateData) (now : Nat) :
    Option Post × Store :=
  match findPost s id with
  | none => (none, s)
  | some p =>
    let updated := applyUpdate p u now
    (some updated, setPost s id updated)

/-- `MemStorage.incrementViews`: silently a no-op on a missing id. -/
def incrementViews (s : Store) (id : String) (now : Nat) : Store :=
  match findPost s id with
  | none => s
  | some p =>
    setPost s id { p with views := p.views + 1, updatedAt := now }

/-- `MemStorage.toggleLike`: increment-only despite the name; `undefined` on a
missing id, otherwise returns the updated item. -/
def toggleLike (s : Store) (id : String) (now : Nat) : Option Post × Store :=
  match findPost s id with
  | none => (none, s)
  | some p =>
    let updated := { p with likes := p.likes + 1, updatedAt := now }
    (some updated, setPost s id updated)

/-- The uploads directory, as the set of stored file names plus an environment
flag saying whether `fs.promises.writeFile` currently fails (models a
`StorageIO` condition). -/
structure FS where
  files : List String
  failWrites : Bool
deriving Repr, DecidableEq

/-- `fs.promises.unlink`: fails when the target is absent. -/
def unlink (fs : FS) (name : String) : Except Unit FS :=
  if name ∈ fs.files then .ok { fs with files := fs.files.erase name }
  else .error ()

/-- `MemStorage.deleteImage`: `try unlink catch log` — every failure is
swallowed, the filesystem is left as it was. Total: never raises. -/
def deleteImage (fs : FS) (name : String) : FS :=
  match unlink fs name with
  | .ok fs' => fs'
  | .error _ => fs

/-- `StorageIO`-class failure of an asset write. -/
inductive StorageErr
  | ioFail
deriving Repr, DecidableEq

/-- `MemStorage.saveImage`: writes the blob and returns the public locator
`/uploads/<filename>`; propagates the write failure. -/
def saveImage (fs : FS) (filename : String) :
    Except StorageErr (String × FS) :=
  if fs.failWrites then .error .ioFail
  else .ok ("/uploads/" ++ filename, { fs with files := filename :: fs.files })

/-- Ordered observable events of `deletePost`, to state that the asset release
attempt happens before the item's removal. -/
inductive DelEvent
  | release (name : String)
  | remove (id : String)
deriving Repr, DecidableEq

/-- `MemStorage.deletePost`: `false` on a missing id; otherwise the attached
image (if any) is deleted first (best-effort, `deleteImage` never raises), then
the map entry is removed and `true` returned. The event list records the order
of the two effects. -/
def deletePost (s : Store) (fs : FS) (id : String) :
    Bool × Store × FS × List DelEvent :=
  match findPost s id with
  | none => (false, s, fs, [])
  | some p =>
    match p.imageFileName with
    | some n =>
      (true, erasePost s id, deleteImage fs n, [.release n, .remove id])
    | none => (true, erasePost s id, fs, [.remove id])

/-- `MemStorage.getPosts`: all items sorted by `createdAt` descending (the
comparator `(a, b) => b.createdAt - a.createdAt`). -/
def getPosts (s : Store) : List Post :=
  List.insertionSort (fun a b => b.createdAt ≤ a.createdAt)
    (s.map (fun e => e.2))

/-- One storage-layer operation, tagged with the id it targets (for `create`,
the freshly generated id) and the wall-clock time at which it runs. -/
inductive Op
  | create (id : String) (ins : InsertPost) (now : Nat)
  | update (id : String) (u : UpdateData) (now : Nat)
  | del (id : String)
  | incViews (id : String) (now : Nat)
  | like (id : String) (now : Nat)
deriving Repr, DecidableEq

/-- The id an operation targets. -/
def Op.target : Op → String
  | .create id _ _ => id
  | .update id _ _ => id
  | .del id => id
  | .incViews id _ => id
  | .like id _ => id

/-- Run one storage operation against the store and the uploads directory. -/
def applyOp : Store × FS → Op → Store × FS
  | (s, fs), .create id ins now => ((createPost s id ins now).2, fs)
  | (s, fs), .update id u now => ((updatePost s id u now).2, fs)
  | (s, fs), .del id =>
    let r := deletePost s fs id
    (r.2.1, r.2.2.1)
  | (s, fs), .incViews id now => (incrementViews s id now, fs)
  | (s, fs), .like id now => ((toggleLike s id now).2, fs)

/-- Run a sequence of storage operations. -/
def runOps (st : Store × FS) (ops : List Op) : Store × FS :=
  ops.foldl applyOp st

/-- A zod validation failure (`ZodError` issue kinds that `insertPostSchema`
can produce on the fields the routes feed it). -/
inductive ValErr
  | required (field : String)
  | tooSmall (field : String)
deriving Repr, DecidableEq

/-- The create request body after the route's `published` string-to-boolean
coercion: each field is present or absent. The route overwrites `imageUrl`
and `imageFileName` after the spread, so the body's own values for them never
reach validation and are not modelled. -/
structure RawCreate where
  title : Option String
  content : Option String
  author : Option String
  category : Option String
  published : Option Bool
deriving Repr, DecidableEq

/-- `insertPostSchema.parse` on the object the POST route assembles:
`title` and `content` are required strings (`z.string()` — the empty string
passes), `author` is required with `.min(1)`, `category` and `published` are
optional, and the image fields are whatever the route supplied (`null` or a
string, both of which `z.string().nullable().optional()` accepts). -/
def validateInsert (r : RawCreate) (imageUrl imageFileName : Option String) :
    Except ValErr InsertPost :=
  match r.title, r.content, r.author with
  | none, _, _ => .error (.required "title")
  | _, none, _ => .error (.required "content")
  | _, _, none => .error (.required "author")
  | some t, some c, some a =>
    if 1 ≤ a.length then
      .ok { title := t, content := c, author := a, category := r.category,
            imageUrl := imageUrl, imageFileName := imageFileName,
            published := r.published }
    else .error (.tooSmall "author")

/-- The update request body after `published` coercion. The trailing fields
model a client that also sends `id`/`views`/`likes`/`createdAt`/`updatedAt`:
those keys are omitted from `insertPostSchema`, so zod strips them and they
can never reach the store. -/
structure RawUpdate where
  title : Option String
  content : Option String
  author : Option String
  category : Option String
  imageUrl : Option (Option String)
  imageFileName : Option (Option String)
  published : Option Bool
  id : Option String
  views : Option Nat
  likes : Option Nat
  createdAt : Option Nat
  updatedAt : Option Nat
deriving Repr, DecidableEq

/-- `insertPostSchema.partial().parse`: every recognized key is optional but,
when present, keeps its field validation (`author` keeps `.min(1)`);
unrecognized keys are stripped. -/
def parsePartialUpdate (r : RawUpdate) : Except ValErr UpdateData :=
  match r.author with
  | some a =>
    if 1 ≤ a.length then
      .ok { title := r.title, content := r.content, author := some a,
            category := r.category, imageUrl := r.imageUrl,
            imageFileName := r.imageFileName, published := r.published }
    else .error (.tooSmall "author")
  | none =>
    .ok { title := r.title, content := r.content, author := none,
          category := r.category, imageUrl := r.imageUrl,
          imageFileName := r.imageFileName, published := r.published }

/-- How a route invocation ends: 404, 400 (ZodError), or the catch-all 500
(in particular a failed asset write). -/
inductive RouteErr
  | notFound
  | invalidData
  | serverErr
deriving Repr, DecidableEq

/-- `POST /api/posts`: if a file was uploaded (modelled as the generated
filename), the image is saved first — a failed write is caught as a 500;
then the assembled object is validated (a ZodError is a 400, the store
untouched); on success the post is created. The returned triple carries the
route outcome together with the resulting store and uploads directory. -/
def postRoute (s : Store) (fs : FS) (genId : String) (file : Option String)
    (body : RawCreate) (now : Nat) : Except RouteErr Post × Store × FS :=
  match file with
  | some filename =>
    match saveImage fs filename with
    | .error _ => (.error .serverErr, s, fs)
    | .ok (url, fs') =>
      match validateInsert body (some url) (some filename) with
      | .error _ => (.error .invalidData, s, fs')
      | .ok ins =>
        let r := createPost s genId ins now
        (.ok r.1, r.2, fs')
  | none =>
    match validateInsert body none none with
    | .error _ => (.error .invalidData, s, fs)
    | .ok ins =>
      let r := createPost s genId ins now
      (.ok r.1, r.2, fs)

/-- `PUT /api/posts/:id`: 404 when the id is absent; when a new file was
uploaded the existing post's old image is deleted first, then the new image is
saved — a failed write is caught as a 500 with the store unchanged (but the
old image already gone); on success the image fields are forced into the
update payload, the payload validated, and the post merged. -/
def putPost (s : Store) (fs : FS) (id : String) (body : RawUpdate)
    (file : Option String) (now : Nat) : Except RouteErr Post × Store × FS :=
  match findPost s id with
  | none => (.error .notFound, s, fs)
  | some existing =>
    match file with
    | some newName =>
      let fs1 := match existing.imageFileName with
        | some oldName => deleteImage fs oldName
        | none => fs
      match saveImage fs1 newName with
      | .error _ => (.error .serverErr, s, fs1)
      | .ok (url, fs2) =>
        let body' := { body with imageUrl := some (some url),
                                 imageFileName := some (some newName) }
        match parsePartialUpdate body' with
        | .error _ => (.error .invalidData, s, fs2)
        | .ok u =>
          match updatePost s id u now with
          | (none, s') => (.error .notFound, s', fs2)
          | (some p, s') => (.ok p, s', fs2)
    | none =>
      match parsePartialUpdate body with
      | .error _ => (.error .invalidData, s, fs)
      | .ok u =>
        match updatePost s id u now with
        | (none, s') => (.error .notFound, s', fs)
        | (some p, s') => (.ok p, s', fs)

/-- An SSE observer connection: reference identity is modelled by `id`, and
`ok` says whether `res.write` currently succeeds on it. -/
structure Conn where
  id : Nat
  ok : Bool
deriving Repr, DecidableEq

/-- The wire frame `data: <JSON of \x7b type, data \x7d>\n\n`, built once per
broadcast. -/
def sseMessage (ty : String) (data : String) : String :=
  "data: \x7b\"type\":\"" ++ ty ++ "\",\"data\":" ++ data ++ "\x7d\n\n"

/-- `res.write(message)` inside the forEach: raises iff the connection is
broken. -/
def tryWrite (c : Conn) (_msg : String) : Except Unit Unit :=
  if c.ok then .ok () else .error ()

/-- One iteration of `broadcastUpdate`'s forEach over the accumulated
(active set, delivery log): `try res.write catch sseConnections.delete(res)`.
The raised error is consumed by the catch, so the iteration always
continues. -/
def broadcastStep (msg : String) (st : List Conn × List (Nat × String))
    (c : Conn) : List Conn × List (Nat × String) :=
  match tryWrite c msg with
  | .ok _ => (st.1, st.2 ++ [(c.id, msg)])
  | .error _ => (st.1.filter (fun x => x.id != c.id), st.2)

/-- `broadcastUpdate(type, data)`: serialize the message once, then iterate
over a snapshot of the active set, writing to each connection and removing a
connection whose write fails. Returns the resulting active set and the list of
(connection, frame) deliveries, in order. -/
def broadcastUpdate (ty data : String) (conns : List Conn) :
    List Conn × List (Nat × String) :=
  let message := sseMessage ty data
  conns.foldl (broadcastStep message) (conns, [])

/-- The PublicBlog client state that gates like submissions: the
session-persisted `likedPosts` set and the in-flight marker `isLiking`. -/
structure ClientState where
  likedPosts : List String
  isLiking : Option String
deriving Repr, DecidableEq

/-- The externally observable effects of one `handleLike` invocation. The
network request is the scheduled `likeMutation.mutate(postId)`. -/
inductive ClientEffect
  | toastAlreadyLiked
  | toastLiking
  | scheduleLikeRequest (id : String)
deriving Repr, DecidableEq

/-- `handleLike(postId, ...)`: an id already in `likedPosts` only surfaces the
"Already liked" toast; an id currently in flight (`isLiking === postId`)
returns silently; otherwise the in-flight marker is set, feedback shown, and
the like request scheduled. -/
def handleLike (st : ClientState) (postId : String) :
    ClientState × List ClientEffect :=
  if st.likedPosts.contains postId then
    (st, [.toastAlreadyLiked])
  else if st.isLiking == some postId then
    (st, [])
  else
    ({ st with isLiking := some postId },
     [.toastLiking, .scheduleLikeRequest postId])

example :
    (createPost [] "a" ⟨"t", "c", "au", none, none, none, none⟩ 5).1.likes
      = 0 := by decide

/-- Whether an operation is a like on the given id. -/
def Op.isLikeOn (id : String) : Op → Bool
  | .like id' _ => id' == id
  | _ => false

/-- How many of the operations are likes on the given id. -/
def countLikeOps (id : String) (ops : List Op) : Nat :=
  (ops.filter (Op.isLikeOn id)).length

/-- The two parts of the attached-asset reference are both null or both
non-null. -/
def assetRefConsistent (p : Post) : Prop :=
  p.imageUrl.isSome = p.imageFileName.isSome

instance (p : Post) : Decidable (assetRefConsistent p) := by
  unfold assetRefConsistent; infer_instance

/-- Every item held by the store satisfies `assetRefConsistent`. -/
def storeConsistent (s : Store) : Prop :=
  ∀ e ∈ s, assetRefConsistent e.2

instance (s : Store) : Decidable (storeConsistent s) := by
  unfold storeConsistent; infer_instance

/-- The payload of the operation supplies the two asset-reference parts
together: a create carries both or neither, an update touches both or
neither (and with values of the same nullability). Operations without a
payload satisfy this trivially. -/
def Op.assetPaired : Op → Bool
  | .create _ ins _ => ins.imageUrl.isSome == ins.imageFileName.isSome
  | .update _ u _ => u.imageUrl.map Option.isSome == u.imageFileName.map Option.isSome
  | _ => true

/-- The ids of the connections whose write fails during a broadcast. -/
def badIds (l : List Conn) : List Nat :=
  (l.filter (fun c => !c.ok)).map Conn.id

/-! ### Sample data for witnesses -/

/-- A minimal item with no attached asset. -/
def samplePost : Post :=
  { id := "p1", title := "t", content := "c", author := "a", category := none,
    imageUrl := none, imageFileName := none, views := 0, likes := 0,
    published := true, createdAt := 0, updatedAt := 0 }

/-- A minimal item with an attached asset `old.png`. -/
def samplePostImg : Post :=
  { samplePost with
    id := "p2"
    imageUrl := some "/uploads/old.png"
    imageFileName := some "old.png" }

/-- An update request body that supplies a new title and also tries to smuggle
in `id`, `views`, `likes`, `createdAt`, `updatedAt`. -/
def sampleRawUpdate : RawUpdate :=
  ⟨some "T2", none, none, none, none, none, none, some "evil", some 99,
    some 99, some 77, some 77⟩

/-- The parse of `sampleRawUpdate`: the smuggled fields are stripped. -/
def sampleUpdateData : UpdateData :=
  ⟨some "T2", none, none, none, none, none, none⟩

/-- An update request body supplying nothing. -/
def emptyRawUpdate : RawUpdate :=
  ⟨none, none, none, none, none, none, none, none, none, none, none, none⟩

/-! ### Map lemmas for the posts association list -/

theorem findPost_setPost_self (s : Store) (id : String) (p : Post) :
    findPost (setPost s id p) id = some p := by
  induction s with
  | nil => simp [findPost, setPost]
  | cons e rest ih =>
    obtain ⟨k, v⟩ := e
    by_cases h : k = id
    · simp [findPost, setPost, h]
    · simp [findPost, setPost, h, ih]

theorem findPost_setPost_ne (s : Store) (id id' : String) (p : Post)
    (h : id' ≠ id) : findPost (setPost s id' p) id = findPost s id := by
  induction s with
  | nil => simp [findPost, setPost, h]
  | cons e rest ih =>
    obtain ⟨k, v⟩ := e
    by_cases hk : k = id'
    · subst hk
      simp [findPost, setPost, h]
    · simp only [setPost, beq_iff_eq, hk, if_false, findPost]
      by_cases hk2 : k = id
      · simp [hk2]
      · simp [hk2, ih]

theorem findPost_erasePost_ne (s : Store) (id id' : String) (h : id' ≠ id) :
    findPost (erasePost s id') id = findPost s id := by
  induction s with
  | nil => simp [findPost, erasePost]
  | cons e rest ih =>
    obtain ⟨k, v⟩ := e
    by_cases hk : k = id'
    · subst hk
      simp [findPost, erasePost, h]
    · simp only [erasePost, beq_iff_eq, hk, if_false, findPost]
      by_cases hk2 : k = id
      · simp [hk2]
      · simp [hk2, ih]

theorem findPost_eq_none_of_not_mem (s : Store) (id : String)
    (h : id ∉ s.map Prod.fst) : findPost s id = none := by
  induction s with
  | nil => rfl
  | cons e rest ih =>
    obtain ⟨k, v⟩ := e
    simp only [List.map_cons, List.mem_cons, not_or] at h
    have hne : k ≠ id := fun hh => h.1 hh.symm
    simp [findPost, hne, ih h.2]

theorem findPost_erasePost_self (s : Store) (id : String)
    (h : (s.map Prod.fst).Nodup) : findPost (erasePost s id) id = none := by
  induction s with
  | nil => rfl
  | cons e rest ih =>
    obtain ⟨k, v⟩ := e
    simp only [List.map_cons, List.nodup_cons] at h
    by_cases hk : k = id
    · subst hk
      simp only [erasePost, beq_self_eq_true, if_true]
      exact findPost_eq_none_of_not_mem rest k h.1
    · simp [erasePost, findPost, hk]
      exact ih h.2

theorem mem_setPost {s : Store} {id : String} {p : Post} {e : String × Post}
    (h : e ∈ setPost s id p) : e = (id, p) ∨ e ∈ s := by
  induction s with
  | nil =>
    simp only [setPost, List.mem_singleton] at h
    exact .inl h
  | cons e2 rest ih =>
    obtain ⟨k, v⟩ := e2
    by_cases hk : k = id
    · subst hk
      simp only [setPost, beq_self_eq_true, if_true, List.mem_cons] at h
      rcases h with h | h
      · exact .inl h
      · exact .inr (List.mem_cons_of_mem _ h)
    · simp only [setPost, beq_iff_eq, hk, if_false, List.mem_cons] at h
      rcases h with rfl | h
      · exact .inr (List.mem_cons_self _ _)
      · rcases ih h with h2 | h2
        · exact .inl h2
        · exact .inr (List.mem_cons_of_mem _ h2)

theorem mem_erasePost {s : Store} {id : String} {e : String × Post}
    (h : e ∈ erasePost s id) : e ∈ s := by
  induction s with
  | nil =>
    simp [erasePost] at h
  | cons e2 rest ih =>
    obtain ⟨k, v⟩ := e2
    by_cases hk : k = id
    · subst hk
      simp only [erasePost, beq_self_eq_true, if_true] at h
      exact List.mem_cons_of_mem _ h
    · simp only [erasePost, beq_iff_eq, hk, if_false, List.mem_cons] at h
      rcases h with rfl | h
      · exact List.mem_cons_self _ _
      · exact List.mem_cons_of_mem _ (ih h)

theorem mem_of_findPost {s : Store} {id : String} {p : Post}
    (h : findPost s id = some p) : (id, p) ∈ s := by
  induction s with
  | nil => simp [findPost] at h
  | cons e rest ih =>
    obtain ⟨k, v⟩ := e
    by_cases hk : k = id
    · subst hk
      simp only [findPost, beq_self_eq_true, if_true, Option.some_inj] at h
      subst h
      exact List.mem_cons_self _ _
    · simp only [findPost, beq_iff_eq, hk, if_false] at h
      exact List.mem_cons_of_mem _ (ih h)

/-! ### Frame lemmas for storage operations -/

/-- An operation whose target differs from `id` leaves the entry at `id`
untouched. -/
theorem applyOp_frame (st : Store × FS) (op : Op) (id : String)
    (h : op.target ≠ id) : findPost (applyOp st op).1 id = findPost st.1 id := by
  obtain ⟨s, fs⟩ := st
  cases op with
  | create id' ins now =>
    simp only [Op.target] at h
    simp only [applyOp, createPost]
    exact findPost_setPost_ne s id id' _ h
  | update id' u now =>
    simp only [Op.target] at h
    simp only [applyOp, updatePost]
    cases hf : findPost s id' with
    | none => rfl
    | some p => exact findPost_setPost_ne s id id' _ h
  | del id' =>
    simp only [Op.target] at h
    simp only [applyOp, deletePost]
    cases hf : findPost s id' with
    | none => rfl
    | some p =>
      rcases himg : p.imageFileName with _ | n <;>
        simp [himg, findPost_erasePost_ne s id id' h]
  | incViews id' now =>
    simp only [Op.target] at h
    simp only [applyOp, incrementViews]
    cases hf : findPost s id' with
    | none => rfl
    | some p => exact findPost_setPost_ne s id id' _ h
  | like id' now =>
    simp only [Op.target] at h
    simp only [applyOp, toggleLike]
    cases hf : findPost s id' with
    | none => rfl
    | some p => exact findPost_setPost_ne s id id' _ h

/-- A like on a present id stores and returns the item with the counter
incremented and the updated-timestamp refreshed. -/
theorem toggleLike_found (s : Store) (id : String) (now : Nat) (p : Post)
    (h : findPost s id = some p) :
    toggleLike s id now =
      (some { p with likes := p.likes + 1, updatedAt := now },
       setPost s id { p with likes := p.likes + 1, updatedAt := now }) := by
  simp [toggleLike, h]

/-- After any run made of likes on `id` and operations targeting other ids,
the item's like counter has grown by exactly the number of likes on `id`. -/
theorem runOps_like_count (ops : List Op) (st : Store × FS) (id : String)
    (p : Post) (hfound : findPost st.1 id = some p)
    (hops : ∀ op ∈ ops, (∃ now, op = Op.like id now) ∨ op.target ≠ id) :
    ∃ q, findPost (runOps st ops).1 id = some q ∧
      q.likes = p.likes + countLikeOps id ops := by
  induction ops generalizing st p with
  | nil => exact ⟨p, hfound, by simp [countLikeOps]⟩
  | cons op rest ih =>
    have hop := hops op (List.mem_cons_self _ _)
    have hrest : ∀ o ∈ rest, (∃ now, o = Op.like id now) ∨ o.target ≠ id :=
      fun o ho => hops o (List.mem_cons_of_mem _ ho)
    rcases hop with ⟨now, rfl⟩ | hne
    · have hstep : findPost (applyOp st (Op.like id now)).1 id =
          some { p with likes := p.likes + 1, updatedAt := now } := by
        obtain ⟨s, fs⟩ := st
        simp only [applyOp, toggleLike_found s id now p hfound]
        exact findPost_setPost_self s id _
      obtain ⟨q, hq, hlikes⟩ := ih (applyOp st (Op.like id now)) _ hstep hrest
      refine ⟨q, ?_, ?_⟩
      · simpa [runOps] using hq
      · simp only [countLikeOps, List.filter, Op.isLikeOn, beq_self_eq_true,
          List.length_cons] at hlikes ⊢
        omega
    · have hstep : findPost (applyOp st op).1 id = some p :=
        (applyOp_frame st op id hne).trans hfound
      obtain ⟨q, hq, hlikes⟩ := ih (applyOp st op) p hstep hrest
      refine ⟨q, ?_, ?_⟩
      · simpa [runOps] using hq
      · have hnotlike : Op.isLikeOn id op = false := by
          cases op with
          | like id' now =>
            simp only [Op.target] at hne
            simp [Op.isLikeOn, hne]
          | create id' ins now => rfl
          | update id' u now => rfl
          | del id' => rfl
          | incViews id' now => rfl
        simpa [countLikeOps, List.filter, hnotlike] using hlikes

/-! ### The asset-reference pairing invariant -/

theorem applyOp_consistent (st : Store × FS) (op : Op)
    (hs : storeConsistent st.1) (hop : op.assetPaired = true) :
    storeConsistent (applyOp st op).1 := by
  obtain ⟨s, fs⟩ := st
  cases op with
  | create id ins now =>
    intro e he
    simp only [applyOp, createPost] at he
    simp only [Op.assetPaired, beq_iff_eq] at hop
    rcases mem_setPost he with rfl | he2
    · exact hop
    · exact hs e he2
  | update id u now =>
    intro e he
    simp only [applyOp, updatePost] at he
    rcases hf : findPost s id with _ | p
    · rw [hf] at he
      exact hs e he
    · rw [hf] at he
      simp only at he
      rcases mem_setPost he with rfl | he2
      · have hp : assetRefConsistent p := hs _ (mem_of_findPost hf)
        simp only [Op.assetPaired, beq_iff_eq] at hop
        simp only [assetRefConsistent, applyUpdate] at hp ⊢
        rcases hiu : u.imageUrl with _ | a <;>
          rcases hif : u.imageFileName with _ | b <;>
            rw [hiu, hif] at hop <;> simp_all
      · exact hs e he2
  | del id =>
    intro e he
    simp only [applyOp, deletePost] at he
    rcases hf : findPost s id with _ | p
    · rw [hf] at he
      exact hs e he
    · rw [hf] at he
      simp only at he
      rcases himg : p.imageFileName with _ | n <;> rw [himg] at he <;>
        simp only at he <;> exact hs e (mem_erasePost he)
  | incViews id now =>
    intro e he
    simp only [applyOp, incrementViews] at he
    rcases hf : findPost s id with _ | p
    · rw [hf] at he
      exact hs e he
    · rw [hf] at he
      simp only at he
      rcases mem_setPost he with rfl | he2
      · have hp : assetRefConsistent p := hs _ (mem_of_findPost hf)
        simpa [assetRefConsistent] using hp
      · exact hs e he2
  | like id now =>
    intro e he
    simp only [applyOp, toggleLike] at he
    rcases hf : findPost s id with _ | p
    · rw [hf] at he
      exact hs e he
    · rw [hf] at he
      simp only at he
      rcases mem_setPost he with rfl | he2
      · have hp : assetRefConsistent p := hs _ (mem_of_findPost hf)
        simpa [assetRefConsistent] using hp
      · exact hs e he2

theorem runOps_consistent (ops : List Op) (st : Store × FS)
    (hs : storeConsistent st.1) (h : ∀ op ∈ ops, op.assetPaired = true) :
    storeConsistent (runOps st ops).1 := by
  induction ops generalizing st with
  | nil => exact hs
  | cons op rest ih =>
    have h1 := applyOp_consistent st op hs (h op (List.mem_cons_self _ _))
    have h2 : ∀ o ∈ rest, o.assetPaired = true :=
      fun o ho => h o (List.mem_cons_of_mem _ ho)
    simpa [runOps] using ih (applyOp st op) h1 h2

/-! ### Broadcast hub lemmas -/

theorem broadcast_deliveries (msg : String) (l : List Conn)
    (acc1 : List Conn) (acc2 : List (Nat × String)) :
    (l.foldl (broadcastStep msg) (acc1, acc2)).2 =
      acc2 ++ (l.filter (fun c => c.ok)).map (fun c => (c.id, msg)) := by
  induction l generalizing acc1 acc2 with
  | nil => simp
  | cons c rest ih =>
    cases hok : c.ok with
    | true =>
      simp only [List.foldl_cons, broadcastStep, tryWrite, hok, if_true]
      rw [ih]
      simp [List.filter, hok]
    | false =>
      simp only [List.foldl_cons, broadcastStep, tryWrite, hok, if_false]
      rw [ih]
      simp [List.filter, hok]

theorem broadcast_active (msg : String) (l : List Conn)
    (acc1 : List Conn) (acc2 : List (Nat × String)) :
    (l.foldl (broadcastStep msg) (acc1, acc2)).1 =
      acc1.filter (fun x => !(badIds l).contains x.id) := by
  induction l generalizing acc1 acc2 with
  | nil => simp [badIds]
  | cons c rest ih =>
    cases hok : c.ok with
    | true =>
      simp only [List.foldl_cons, broadcastStep, tryWrite, hok, if_true]
      rw [ih]
      simp [badIds, List.filter, hok]
    | false =>
      have hstep : broadcastStep msg (acc1, acc2) c =
          (acc1.filter (fun x => x.id != c.id), acc2) := by
        simp [broadcastStep, tryWrite, hok]
      simp only [List.foldl_cons, hstep]
      rw [ih, List.filter_filter]
      apply List.filter_congr
      intro x _
      simp [badIds, List.filter, hok, List.contains_cons, Bool.not_or, bne,
        Bool.and_comm]

theorem contains_badIds (conns : List Conn)
    (hnodup : (conns.map Conn.id).Nodup) (x : Conn) (hx : x ∈ conns) :
    (badIds conns).contains x.id = !x.ok := by
  cases hok : x.ok with
  | true =>
    simp only [Bool.not_true]
    by_contra hcon
    rw [Bool.not_eq_false] at hcon
    rw [List.contains_eq_any_beq] at hcon
    simp only [List.any_eq_true, beq_iff_eq] at hcon
    obtain ⟨i, hi, hieq⟩ := hcon
    simp only [badIds, List.mem_map, List.mem_filter] at hi
    obtain ⟨c', ⟨hc'm, hc'bad⟩, rfl⟩ := hi
    have heq := List.inj_on_of_nodup_map hnodup hc'm hx hieq.symm
    rw [heq] at hc'bad
    simp [hok] at hc'bad
  | false =>
    simp only [Bool.not_false]
    rw [List.contains_eq_any_beq]
    simp only [List.any_eq_true, beq_iff_eq]
    exact ⟨x.id, List.mem_map_of_mem _ (List.mem_filter.mpr ⟨hx, by simp [hok]⟩),
      rfl⟩

theorem countP_id_one (l : List Conn) (hnodup : (l.map Conn.id).Nodup)
    (c : Conn) (hc : c ∈ l) :
    l.countP (fun x => x.id == c.id) = 1 := by
  induction l with
  | nil => simp at hc
  | cons h rest ih =>
    simp only [List.map_cons, List.nodup_cons] at hnodup
    rcases List.mem_cons.mp hc with rfl | hcr
    · rw [List.countP_cons_of_pos _ _ (by simp)]
      have hz : rest.countP (fun x => x.id == c.id) = 0 := by
        rw [List.countP_eq_zero]
        intro x hxr
        simp only [beq_iff_eq]
        intro hxe
        exact hnodup.1 (hxe ▸ List.mem_map_of_mem _ hxr)
      omega
    · have hne : h.id ≠ c.id := by
        intro he
        exact hnodup.1 (he ▸ List.mem_map_of_mem _ hcr)
      rw [List.countP_cons_of_neg _ _ (by simp [hne])]
      exact ih hnodup.2 hcr

theorem deletePost_not_found (s : Store) (fs : FS) (id : String)
    (h : findPost s id = none) : deletePost s fs id = (false, s, fs, []) := by
  simp [deletePost, h]

theorem deleteImage_failWrites (fs : FS) (n : String) :
    (deleteImage fs n).failWrites = fs.failWrites := by
  unfold deleteImage unlink
  by_cases h : n ∈ fs.files <;> simp [h]

theorem parsePartialUpdate_ok (r : RawUpdate) (u : UpdateData)
    (h : parsePartialUpdate r = .ok u) :
    u.title = r.title ∧ u.content = r.content ∧ u.author = r.author
    ∧ u.category = r.category ∧ u.imageUrl = r.imageUrl
    ∧ u.imageFileName = r.imageFileName ∧ u.published = r.published := by
  unfold parsePartialUpdate at h
  rcases ha : r.author with _ | a
  · rw [ha] at h
    simp only [Except.ok.injEq] at h
    subst h
    simp [ha]
  · rw [ha] at h
    simp only at h
    by_cases hlen : 1 ≤ a.length
    · rw [if_pos hlen] at h
      simp only [Except.ok.injEq] at h
      subst h
      simp [ha]
    · rw [if_neg hlen] at h
      cases h

theorem validateInsert_ok_of (r : RawCreate) (iu ifn : Option String)
    (h1 : r.title.isSome = true) (h2 : r.content.isSome = true)
    (h3 : 1 ≤ (r.author.getD "").length) :
    validateInsert r iu ifn =
      .ok { title := r.title.getD "", content := r.content.getD "",
            author := r.author.getD "", category := r.category,
            imageUrl := iu, imageFileName := ifn,
            published := r.published } := by
  rcases ht : r.title with _ | t
  · simp [ht] at h1
  · rcases hc : r.content with _ | c
    · simp [hc] at h2
    · rcases ha : r.author with _ | a
      · simp [ha] at h3
      · rw [ha] at h3
        simp only [Option.getD_some] at h3
        simp [validateInsert, ht, hc, ha, h3]

theorem validateInsert_error_of (r : RawCreate) (iu ifn : Option String)
    (h : ¬(r.title.isSome = true ∧ r.content.isSome = true ∧
      1 ≤ (r.author.getD "").length)) :
    ∃ e, validateInsert r iu ifn = .error e := by
  rcases ht : r.title with _ | t
  · exact ⟨.required "title", by simp [validateInsert, ht]⟩
  · rcases hc : r.content with _ | c
    · exact ⟨.required "content", by simp [validateInsert, ht, hc]⟩
    · rcases ha : r.author with _ | a
      · exact ⟨.required "author", by simp [validateInsert, ht, hc, ha]⟩
      · have hlen : ¬ 1 ≤ a.length := by
          intro hcon
          exact h ⟨by simp [ht], by simp [hc], by simp [ha, hcon]⟩
        exact ⟨.tooSmall "author",
          by simp [validateInsert, ht, hc, ha, hlen]⟩

theorem putPost_ok_inv (s : Store) (fs : FS) (id : String) (r : RawUpdate)
    (file : Option String) (now : Nat) (p p' : Post)
    (hfound : findPost s id = some p)
    (hok : (putPost s fs id r file now).1 = .ok p') :
    ∃ u : UpdateData, p' = applyUpdate p u now
      ∧ u.title = r.title ∧ u.content = r.content ∧ u.author = r.author
      ∧ u.category = r.category ∧ u.published = r.published
      ∧ (file = none → u.imageUrl = r.imageUrl
          ∧ u.imageFileName = r.imageFileName) := by
  cases file with
  | none =>
    simp only [putPost, hfound] at hok
    rcases hp : parsePartialUpdate r with e | u
    · rw [hp] at hok
      simp at hok
    · rw [hp] at hok
      simp only [updatePost, hfound, Except.ok.injEq] at hok
      obtain ⟨h1, h2, h3, h4, h5, h6, h7⟩ := parsePartialUpdate_ok r u hp
      exact ⟨u, hok.symm, h1, h2, h3, h4, h7, fun _ => ⟨h5, h6⟩⟩
  | some newName =>
    simp only [putPost, hfound] at hok
    rcases hold : p.imageFileName with _ | oldName <;> rw [hold] at hok <;>
      simp only at hok
    · rcases hsv : saveImage fs newName with e | pr
      · rw [hsv] at hok
        simp at hok
      · obtain ⟨url, fs2⟩ := pr
        rw [hsv] at hok
        simp only at hok
        rcases hp : parsePartialUpdate
            { r with
              imageUrl := some (some url)
              imageFileName := some (some newName) } with e | u
        · rw [hp] at hok
          simp at hok
        · rw [hp] at hok
          simp only [updatePost, hfound, Except.ok.injEq] at hok
          obtain ⟨h1, h2, h3, h4, _, _, h7⟩ := parsePartialUpdate_ok _ u hp
          exact ⟨u, hok.symm, h1, h2, h3, h4, h7, fun hf => by cases hf⟩
    · rcases hsv : saveImage (deleteImage fs oldName) newName with e | pr
      · rw [hsv] at hok
        simp at hok
      · obtain ⟨url, fs2⟩ := pr
        rw [hsv] at hok
        simp only at hok
        rcases hp : parsePartialUpdate
            { r with
              imageUrl := some (some url)
              imageFileName := some (some newName) } with e | u
        · rw [hp] at hok
          simp at hok
        · rw [hp] at hok
          simp only [updatePost, hfound, Except.ok.injEq] at hok
          obtain ⟨h1, h2, h3, h4, _, _, h7⟩ := parsePartialUpdate_ok _ u hp
          exact ⟨u, hok.symm, h1, h2, h3, h4, h7, fun hf => by cases hf⟩

/-! ### Claim theorems -/

/-- C4: starting from an item present in the store, any run consisting of
likes on that id interleaved with operations targeting other items leaves the
item's like counter exactly `countLikeOps` higher; moreover each single like
call returns the updated item, and a like on an absent id returns the
not-found signal and leaves the store unchanged. -/
theorem like_increments_exactly (ops : List Op) (st : Store × FS)
    (id : String) (p : Post) (hfound : findPost st.1 id = some p)
    (hops : ∀ op ∈ ops, (∃ now, op = Op.like id now) ∨ op.target ≠ id) :
    (∃ q, findPost (runOps st ops).1 id = some q ∧
        q.likes = p.likes + countLikeOps id ops)
    ∧ (∀ (s : Store) (i : String) (q : Post) (now : Nat),
        findPost s i = some q → toggleLike s i now =
          (some { q with likes := q.likes + 1, updatedAt := now },
           setPost s i { q with likes := q.likes + 1, updatedAt := now }))
    ∧ (∀ (s : Store) (i : String) (now : Nat), findPost s i = none →
        toggleLike s i now = (none, s)) := by
  refine ⟨runOps_like_count ops st id p hfound hops, ?_, ?_⟩
  · intro s i q now h
    exact toggleLike_found s i now q h
  · intro s i now h
    simp [toggleLike, h]

/-- Witness for C4: two likes on `p1` interleaved with a delete of another id
raise the counter from 0 to 2. -/
theorem like_increments_exactly_witness :
    ∃ q, findPost (runOps ([("p1", samplePost)], ⟨[], false⟩)
        [Op.like "p1" 1, Op.del "x", Op.like "p1" 3]).1 "p1" = some q ∧
      q.likes = samplePost.likes +
        countLikeOps "p1" [Op.like "p1" 1, Op.del "x", Op.like "p1" 3] :=
  (like_increments_exactly [Op.like "p1" 1, Op.del "x", Op.like "p1" 3]
    ([("p1", samplePost)], ⟨[], false⟩) "p1" samplePost (by decide)
    (by
      intro op hop
      simp only [List.mem_cons, List.not_mem_nil, or_false] at hop
      rcases hop with rfl | rfl | rfl
      · exact .inl ⟨1, rfl⟩
      · exact .inr (by decide)
      · exact .inl ⟨3, rfl⟩)).1

/-- C7: once `deletePost` has returned `true` for an id, `getPost` returns the
not-found signal for it, and a second `deletePost` returns `false` without
changing the store: delete is idempotent in effect. -/
theorem delete_idempotent (s : Store) (fs : FS) (id : String) (p : Post)
    (hnodup : (s.map Prod.fst).Nodup) (hfound : findPost s id = some p) :
    (deletePost s fs id).1 = true
    ∧ findPost (deletePost s fs id).2.1 id = none
    ∧ (deletePost (deletePost s fs id).2.1 (deletePost s fs id).2.2.1 id).1
        = false
    ∧ (deletePost (deletePost s fs id).2.1 (deletePost s fs id).2.2.1 id).2.1
        = (deletePost s fs id).2.1 := by
  have h2 : findPost (deletePost s fs id).2.1 id = none := by
    rcases himg : p.imageFileName with _ | n <;>
      simp [deletePost, hfound, himg, findPost_erasePost_self s id hnodup]
  refine ⟨?_, h2, ?_, ?_⟩
  · rcases himg : p.imageFileName with _ | n <;>
      simp [deletePost, hfound, himg]
  · rw [deletePost_not_found _ _ _ h2]
  · rw [deletePost_not_found _ _ _ h2]

/-- Witness for C7 at a one-item store. -/
theorem delete_idempotent_witness :
    (deletePost [("p1", samplePost)] ⟨[], false⟩ "p1").1 = true
    ∧ findPost (deletePost [("p1", samplePost)] ⟨[], false⟩ "p1").2.1 "p1"
        = none
    ∧ (deletePost (deletePost [("p1", samplePost)] ⟨[], false⟩ "p1").2.1
        (deletePost [("p1", samplePost)] ⟨[], false⟩ "p1").2.2.1 "p1").1
        = false
    ∧ (deletePost (deletePost [("p1", samplePost)] ⟨[], false⟩ "p1").2.1
        (deletePost [("p1", samplePost)] ⟨[], false⟩ "p1").2.2.1 "p1").2.1
        = (deletePost [("p1", samplePost)] ⟨[], false⟩ "p1").2.1 :=
  delete_idempotent [("p1", samplePost)] ⟨[], false⟩ "p1" samplePost
    (by decide) (by decide)

/-- C8: `getPosts` returns a permutation of all items held by the store (so it
never fails and never drops an item), ordered by creation time with the most
recent first. -/
theorem list_sorted_desc (s : Store) :
    List.Perm (getPosts s) (s.map (fun e => e.2))
    ∧ (getPosts s).Pairwise (fun a b => b.createdAt ≤ a.createdAt) := by
  constructor
  · exact List.perm_insertionSort _ _
  · letI : IsTotal Post (fun a b => b.createdAt ≤ a.createdAt) :=
      ⟨fun a b => Nat.le_total b.createdAt a.createdAt⟩
    letI : IsTrans Post (fun a b => b.createdAt ≤ a.createdAt) :=
      ⟨fun _ _ _ hab hbc => Nat.le_trans hbc hab⟩
    exact List.sorted_insertionSort _ _

/-- C9: a like trigger for an id already in the session-liked set issues no
network request and only surfaces the duplicate-engagement toast; a like
trigger for an id whose submission is outstanding (`isLiking === postId`)
issues no request at all. -/
theorem handleLike_dedup (st : ClientState) (postId : String) :
    (postId ∈ st.likedPosts →
      (handleLike st postId).2 = [ClientEffect.toastAlreadyLiked]
      ∧ (handleLike st postId).1 = st)
    ∧ (postId ∉ st.likedPosts → st.isLiking = some postId →
      (handleLike st postId).2 = [] ∧ (handleLike st postId).1 = st) := by
  constructor
  · intro h
    simp [handleLike, h]
  · intro h1 h2
    simp [handleLike, h1, h2]

/-- Witness for C9: an already-liked id and an in-flight id. -/
theorem handleLike_dedup_witness :
    ((handleLike ⟨["p1"], none⟩ "p1").2 = [ClientEffect.toastAlreadyLiked]
      ∧ (handleLike ⟨["p1"], none⟩ "p1").1 = ⟨["p1"], none⟩)
    ∧ ((handleLike ⟨[], some "p2"⟩ "p2").2 = []
      ∧ (handleLike ⟨[], some "p2"⟩ "p2").1 = ⟨[], some "p2"⟩) :=
  ⟨(handleLike_dedup ⟨["p1"], none⟩ "p1").1 (by decide),
   (handleLike_dedup ⟨[], some "p2"⟩ "p2").2 (by decide) rfl⟩

/-- C2 (counterexample): the store-level operations accept asset-reference
parts separately: an update supplying only `imageUrl` (exactly what
`insertPostSchema.partial()` produces from a PUT body carrying only that
key) leaves an item with a locator but no storage name — the claim as
stated over all operation sequences is false. -/
theorem asset_pairing_violable :
    ¬ storeConsistent (runOps ([], ⟨[], false⟩)
      [Op.create "p1" ⟨"t", "c", "a", none, none, none, none⟩ 0,
       Op.update "p1" ⟨none, none, none, none,
         some (some "/uploads/x.png"), none, none⟩ 1]).1 := by
  decide

/-- C2 (amended): starting from the empty store, any sequence of operations
whose payloads supply the two asset-reference parts together (both or
neither) keeps every stored item's parts both-null or both-non-null. -/
theorem store_asset_consistent (fs : FS) (ops : List Op)
    (h : ∀ op ∈ ops, op.assetPaired = true) :
    storeConsistent (runOps ([], fs) ops).1 :=
  runOps_consistent ops ([], fs) (by intro e he; simp at he) h

/-- Witness for C2 (amended): a create that supplies both parts followed by
an update that nulls both keeps the store consistent. -/
theorem store_asset_consistent_witness :
    storeConsistent (runOps ([], ⟨[], false⟩)
      [Op.create "p1" ⟨"t", "c", "a", none, some "/uploads/x.png",
        some "x.png", none⟩ 0,
       Op.update "p1" ⟨none, none, none, none, some none, some none,
        none⟩ 1]).1 :=
  store_asset_consistent ⟨[], false⟩ _ (by decide)

/-- C5: a broadcast serializes the frame once and delivers exactly that frame
exactly once to every connection whose write succeeds; connections whose
write fails are removed from the active set, and their failure does not
abort delivery to the rest. -/
theorem broadcast_exactly_once (ty data : String) (conns : List Conn)
    (hnodup : (conns.map Conn.id).Nodup) :
    (broadcastUpdate ty data conns).2 =
      (conns.filter (fun c => c.ok)).map (fun c => (c.id, sseMessage ty data))
    ∧ (broadcastUpdate ty data conns).1 = conns.filter (fun c => c.ok)
    ∧ ∀ c ∈ conns, c.ok = true →
        (broadcastUpdate ty data conns).2.countP (fun d => d.1 == c.id)
          = 1 := by
  have hdel : (broadcastUpdate ty data conns).2 =
      (conns.filter (fun c => c.ok)).map
        (fun c => (c.id, sseMessage ty data)) := by
    unfold broadcastUpdate
    rw [broadcast_deliveries]
    simp
  have hact : (broadcastUpdate ty data conns).1 =
      conns.filter (fun c => c.ok) := by
    unfold broadcastUpdate
    rw [broadcast_active]
    apply List.filter_congr
    intro x hx
    rw [contains_badIds conns hnodup x hx]
    simp
  refine ⟨hdel, hact, ?_⟩
  intro c hcmem hok
  rw [hdel, List.countP_map]
  have hsub : ((conns.filter (fun c => c.ok)).map Conn.id).Nodup :=
    List.Nodup.sublist ((List.filter_sublist conns).map Conn.id) hnodup
  have hcf : c ∈ conns.filter (fun c => c.ok) :=
    List.mem_filter.mpr ⟨hcmem, hok⟩
  exact countP_id_one (conns.filter (fun c => c.ok)) hsub c hcf

/-- Witness for C5: three connections, the middle one broken. -/
theorem broadcast_exactly_once_witness :
    (broadcastUpdate "post_created" "x" [⟨1, true⟩, ⟨2, false⟩, ⟨3, true⟩]).2 =
      (([⟨1, true⟩, ⟨2, false⟩, ⟨3, true⟩] : List Conn).filter
        (fun c => c.ok)).map (fun c => (c.id, sseMessage "post_created" "x"))
    ∧ (broadcastUpdate "post_created" "x"
        [⟨1, true⟩, ⟨2, false⟩, ⟨3, true⟩]).1 =
      ([⟨1, true⟩, ⟨2, false⟩, ⟨3, true⟩] : List Conn).filter (fun c => c.ok)
    ∧ ∀ c ∈ ([⟨1, true⟩, ⟨2, false⟩, ⟨3, true⟩] : List Conn), c.ok = true →
        (broadcastUpdate "post_created" "x"
          [⟨1, true⟩, ⟨2, false⟩, ⟨3, true⟩]).2.countP
          (fun d => d.1 == c.id) = 1 :=
  broadcast_exactly_once "post_created" "x"
    [⟨1, true⟩, ⟨2, false⟩, ⟨3, true⟩] (by decide)

/-- C6: deleting an item with an attached asset attempts the release before
the removal (witnessed by the event order), the removal succeeds and makes
the item unreachable regardless of the filesystem state, and a failing
release (target absent) is swallowed, leaving the filesystem as it was. -/
theorem delete_releases_before_removal (s : Store) (fs : FS) (id : String)
    (p : Post) (n : String) (hnodup : (s.map Prod.fst).Nodup)
    (hfound : findPost s id = some p) (himg : p.imageFileName = some n) :
    (deletePost s fs id).1 = true
    ∧ (deletePost s fs id).2.2.2 = [DelEvent.release n, DelEvent.remove id]
    ∧ findPost (deletePost s fs id).2.1 id = none
    ∧ (n ∉ fs.files → (deletePost s fs id).2.2.1 = fs) := by
  refine ⟨?_, ?_, ?_, ?_⟩
  · simp [deletePost, hfound, himg]
  · simp [deletePost, hfound, himg]
  · simp only [deletePost, hfound, himg]
    exact findPost_erasePost_self s id hnodup
  · intro hnot
    simp [deletePost, hfound, himg, deleteImage, unlink, hnot]

/-- Witness for C6: the asset's file is absent, so the release fails, yet the
item is removed and the events are in release-then-remove order. -/
theorem delete_releases_before_removal_witness :
    (deletePost [("p2", samplePostImg)] ⟨[], false⟩ "p2").1 = true
    ∧ (deletePost [("p2", samplePostImg)] ⟨[], false⟩ "p2").2.2.2 =
        [DelEvent.release "old.png", DelEvent.remove "p2"]
    ∧ findPost (deletePost [("p2", samplePostImg)] ⟨[], false⟩ "p2").2.1 "p2"
        = none
    ∧ ("old.png" ∉ (⟨[], false⟩ : FS).files →
        (deletePost [("p2", samplePostImg)] ⟨[], false⟩ "p2").2.2.1 =
          ⟨[], false⟩) :=
  delete_releases_before_removal [("p2", samplePostImg)] ⟨[], false⟩ "p2"
    samplePostImg "old.png" (by decide) (by decide) (by decide)

/-- C10 helper facts are in `parsePartialUpdate_ok`; the claim itself: an
update accepted through the PUT surface never changes the item's identifier,
view counter, like counter, or created timestamp — even when the raw body
supplies them, since the schema omits those keys and zod strips them — the
updated timestamp is refreshed, and every unsupplied field keeps its value. -/
theorem update_preserves_frame (s : Store) (fs : FS) (id : String)
    (r : RawUpdate) (file : Option String) (now : Nat) (p p' : Post)
    (hfound : findPost s id = some p)
    (hok : (putPost s fs id r file now).1 = .ok p') :
    p'.id = p.id ∧ p'.views = p.views ∧ p'.likes = p.likes
    ∧ p'.createdAt = p.createdAt ∧ p'.updatedAt = now
    ∧ (r.title = none → p'.title = p.title)
    ∧ (r.content = none → p'.content = p.content)
    ∧ (r.author = none → p'.author = p.author)
    ∧ (r.category = none → p'.category = p.category)
    ∧ (r.published = none → p'.published = p.published)
    ∧ (file = none → r.imageUrl = none → p'.imageUrl = p.imageUrl)
    ∧ (file = none → r.imageFileName = none →
        p'.imageFileName = p.imageFileName) := by
  obtain ⟨u, rfl, ht, hc2, ha, hcat, hpub, himg⟩ :=
    putPost_ok_inv s fs id r file now p p' hfound hok
  refine ⟨rfl, rfl, rfl, rfl, rfl, ?_, ?_, ?_, ?_, ?_, ?_, ?_⟩
  · intro hn
    simp [applyUpdate, ht, hn]
  · intro hn
    simp [applyUpdate, hc2, hn]
  · intro hn
    simp [applyUpdate, ha, hn]
  · intro hn
    simp [applyUpdate, hcat, hn]
  · intro hn
    simp [applyUpdate, hpub, hn]
  · intro hf hn
    obtain ⟨hiu, _⟩ := himg hf
    simp [applyUpdate, hiu, hn]
  · intro hf hn
    obtain ⟨_, hif⟩ := himg hf
    simp [applyUpdate, hif, hn]

/-- Witness for C10: an update supplying a new title plus smuggled
`id`/`views`/`likes`/`createdAt`/`updatedAt` keeps the protected fields. -/
theorem update_preserves_frame_witness :
    (applyUpdate samplePost sampleUpdateData 5).id = samplePost.id
    ∧ (applyUpdate samplePost sampleUpdateData 5).views = samplePost.views
    ∧ (applyUpdate samplePost sampleUpdateData 5).likes = samplePost.likes
    ∧ (applyUpdate samplePost sampleUpdateData 5).createdAt
        = samplePost.createdAt
    ∧ (applyUpdate samplePost sampleUpdateData 5).updatedAt = 5
    ∧ (sampleRawUpdate.title = none →
        (applyUpdate samplePost sampleUpdateData 5).title = samplePost.title)
    ∧ (sampleRawUpdate.content = none →
        (applyUpdate samplePost sampleUpdateData 5).content
          = samplePost.content)
    ∧ (sampleRawUpdate.author = none →
        (applyUpdate samplePost sampleUpdateData 5).author
          = samplePost.author)
    ∧ (sampleRawUpdate.category = none →
        (applyUpdate samplePost sampleUpdateData 5).category
          = samplePost.category)
    ∧ (sampleRawUpdate.published = none →
        (applyUpdate samplePost sampleUpdateData 5).published
          = samplePost.published)
    ∧ ((none : Option String) = none → sampleRawUpdate.imageUrl = none →
        (applyUpdate samplePost sampleUpdateData 5).imageUrl
          = samplePost.imageUrl)
    ∧ ((none : Option String) = none →
        sampleRawUpdate.imageFileName = none →
        (applyUpdate samplePost sampleUpdateData 5).imageFileName
          = samplePost.imageFileName) :=
  update_preserves_frame [("p1", samplePost)] ⟨[], false⟩ "p1"
    sampleRawUpdate none 5 samplePost
    (applyUpdate samplePost sampleUpdateData 5) (by decide) rfl

/-- C1 (counterexample): item `p2` references `old.png`; the new-asset write
fails; the whole update fails (500) and the item still references `old.png`,
but the old asset has already been deleted from the uploads directory —
contradicting the claim that the old asset has not been released. -/
theorem update_fail_asset_already_gone :
    (putPost [("p2", samplePostImg)] ⟨["old.png"], true⟩ "p2" emptyRawUpdate
        (some "new.png") 7).1 = .error .serverErr
    ∧ (putPost [("p2", samplePostImg)] ⟨["old.png"], true⟩ "p2"
        emptyRawUpdate (some "new.png") 7).2.1 = [("p2", samplePostImg)]
    ∧ "old.png" ∉ (putPost [("p2", samplePostImg)] ⟨["old.png"], true⟩ "p2"
        emptyRawUpdate (some "new.png") 7).2.2.files :=
  ⟨rfl, rfl, by decide⟩

/-- C1 (amended): when the item has an old asset and the new-asset write
fails, the whole update fails with the catch-all error, the item store is
unchanged (the item still references its old locator and storage name), and
the old asset has already been released — the PUT route deletes it before
attempting the new write. -/
theorem update_fail_releases_old (s : Store) (fs : FS) (id : String)
    (r : RawUpdate) (newName : String) (now : Nat) (p : Post)
    (oldName : String) (hfound : findPost s id = some p)
    (hold : p.imageFileName = some oldName) (hfail : fs.failWrites = true) :
    putPost s fs id r (some newName) now =
      (.error .serverErr, s, deleteImage fs oldName) := by
  have h1 : (deleteImage fs oldName).failWrites = true :=
    (deleteImage_failWrites fs oldName).trans hfail
  simp [putPost, hfound, hold, saveImage, h1]

/-- Witness for C1 (amended) at the concrete failing input. -/
theorem update_fail_releases_old_witness :
    putPost [("p2", samplePostImg)] ⟨["old.png"], true⟩ "p2" emptyRawUpdate
        (some "new.png") 7 =
      (.error .serverErr, [("p2", samplePostImg)],
        deleteImage ⟨["old.png"], true⟩ "old.png") :=
  update_fail_releases_old [("p2", samplePostImg)] ⟨["old.png"], true⟩ "p2"
    emptyRawUpdate "new.png" 7 samplePostImg "old.png" (by decide) (by decide)
    rfl

/-- C3 (counterexample): the create route accepts an empty title — only
`author` carries a non-empty check in the schema — so a create with
`title = ""` succeeds and stores the item, contradicting the claim that it
must fail with a validation error. -/
theorem create_empty_title_accepted :
    (postRoute [] ⟨[], false⟩ "id1" none
        ⟨some "", some "b", some "c", none, none⟩ 0).1 =
      .ok { id := "id1", title := "", content := "b", author := "c",
            category := none, imageUrl := none, imageFileName := none,
            views := 0, likes := 0, published := true, createdAt := 0,
            updatedAt := 0 }
    ∧ findPost (postRoute [] ⟨[], false⟩ "id1" none
        ⟨some "", some "b", some "c", none, none⟩ 0).2.1 "id1" ≠ none :=
  ⟨rfl, by decide⟩

/-- C3 (amended): a create succeeds exactly when title, body and author are
present and the author is non-empty (title and body may be empty strings);
otherwise it fails with the validation error and the posts store is
unchanged. (When a file accompanies an invalid create, the image has already
been written — only the posts store is guaranteed unchanged.) -/
theorem create_validation (s : Store) (fs : FS) (genId : String)
    (file : Option String) (body : RawCreate) (now : Nat)
    (hw : fs.failWrites = false) :
    ((body.title.isSome = true ∧ body.content.isSome = true ∧
        1 ≤ (body.author.getD "").length) →
      ∃ q, (postRoute s fs genId file body now).1 = .ok q)
    ∧ (¬(body.title.isSome = true ∧ body.content.isSome = true ∧
        1 ≤ (body.author.getD "").length) →
      (postRoute s fs genId file body now).1 = .error .invalidData
      ∧ (postRoute s fs genId file body now).2.1 = s) := by
  constructor
  · rintro ⟨h1, h2, h3⟩
    cases file with
    | none =>
      refine ⟨(createPost s genId
        { title := body.title.getD "", content := body.content.getD "",
          author := body.author.getD "", category := body.category,
          imageUrl := none, imageFileName := none,
          published := body.published } now).1, ?_⟩
      simp [postRoute, validateInsert_ok_of body none none h1 h2 h3]
    | some fname =>
      have hsv : saveImage fs fname = .ok ("/uploads/" ++ fname,
          { fs with files := fname :: fs.files }) := by
        simp [saveImage, hw]
      refine ⟨(createPost s genId
        { title := body.title.getD "", content := body.content.getD "",
          author := body.author.getD "", category := body.category,
          imageUrl := some ("/uploads/" ++ fname),
          imageFileName := some fname,
          published := body.published } now).1, ?_⟩
      simp [postRoute, hsv, validateInsert_ok_of body _ _ h1 h2 h3]
  · intro hneg
    cases file with
    | none =>
      obtain ⟨e, he⟩ := validateInsert_error_of body none none hneg
      constructor <;> simp [postRoute, he]
    | some fname =>
      have hsv : saveImage fs fname = .ok ("/uploads/" ++ fname,
          { fs with files := fname :: fs.files }) := by
        simp [saveImage, hw]
      obtain ⟨e, he⟩ := validateInsert_error_of body
        (some ("/uploads/" ++ fname)) (some fname) hneg
      constructor <;> simp [postRoute, hsv, he]

/-- Witness for C3 (amended): a fully valid body is accepted. -/
theorem create_validation_witness :
    ∃ q, (postRoute [] ⟨[], false⟩ "id1" none
      ⟨some "x", some "y", some "z", none, none⟩ 0).1 = .ok q :=
  (create_validation [] ⟨[], false⟩ "id1" none
    ⟨some "x", some "y", some "z", none, none⟩ 0 rfl).1 (by decide)

end BlogsCorner
